import Mathlib

/-!
Verification development for a prolly-tree core (builder + cursor + mutation
engine). The definitions below are a shallow embedding of `src/builder.ts`,
`src/cursor.ts` and the tree entry points; helper modules absent from the
source tree (`boundaries.ts`, `compare.ts`, `internal.ts`, `utils.ts`,
`codec.ts`) are modelled from the specification and are marked as such.
Byte arrays are lists of naturals; the injected codec and hasher are
modelled by an executable injective encoding with an identity digest.
-/

set_option maxRecDepth 10000

abbrev Bytes := List Nat

/-- Entry of the tree: `(timestamp, hash, message)`; `(timestamp, hash)` is the
ordering key (tuple), `message` the value (at internal levels: child digest). -/
structure Node where
  timestamp : Int
  hash : Bytes
  message : Bytes
deriving DecidableEq, Repr

def defaultNode : Node := ⟨0, [], []⟩

/-- Modelled from the spec: lexicographic byte comparison of `uint8arrays`
`compare` (shorter array that is a proper front part compares smaller). -/
def compareBytes : Bytes → Bytes → Ordering
  | [], [] => .eq
  | [], _ :: _ => .lt
  | _ :: _, [] => .gt
  | a :: as, b :: bs =>
    if a < b then .lt else if b < a then .gt else compareBytes as bs

/-- Modelled from the spec: `compareTuples` from the missing `compare.ts`;
ascending by timestamp, ties broken by lexicographic hash comparison. -/
def compareTuples (a b : Node) : Ordering :=
  if a.timestamp < b.timestamp then .lt
  else if b.timestamp < a.timestamp then .gt
  else compareBytes a.hash b.hash

/-- Bucket prefix (named `Prefix` in the source): average and level; the codec
and hash identifiers are fixed per tree and omitted from the model. -/
structure Pfx where
  average : Nat
  level : Nat
deriving DecidableEq, Repr

/-- Modelled from the spec: `prefixWithLevel` from the missing `internal.ts`. -/
def pfxWithLevel (p : Pfx) (level : Nat) : Pfx := { p with level := level }

/-- In-memory bucket: prefix plus ordered entries. Bytes and digest are
computed accessors, which agrees with the source because `createBucket`
derives them from `(prefix, nodes)` and `loadBucket` verifies them. -/
structure Bucket where
  pfx : Pfx
  nodes : List Node
deriving DecidableEq, Repr

def createBucket (p : Pfx) (nodes : List Node) : Bucket := ⟨p, nodes⟩

/-- Modelled from the spec: an executable injective stand-in for the injected
canonical codec; serialized form is `encode(prefix) ++ encode(entries)`. -/
def encodeNode (n : Node) : Bytes :=
  [n.timestamp.toNat, n.hash.length] ++ n.hash ++ [n.message.length] ++ n.message

def encodeBucket (p : Pfx) (nodes : List Node) : Bytes :=
  [p.average, p.level, nodes.length] ++ nodes.flatMap encodeNode

def bucketBytes (b : Bucket) : Bytes := encodeBucket b.pfx b.nodes

/-- Modelled from the spec: the injected hasher, idealized as an injective
(identity) digest over the serialized bucket bytes. -/
def hashBytes (bs : Bytes) : Bytes := bs

def getHash (b : Bucket) : Bytes := hashBytes (bucketBytes b)

def getBoundary (b : Bucket) : Option Node := b.nodes.getLast?

/-- Modelled from the spec: `parent_entry(bucket)` =
`(boundary.timestamp, boundary.hash, bucket.digest)` when non-empty. -/
def getParentNode (b : Bucket) : Option Node :=
  (getBoundary b).map fun n => ⟨n.timestamp, n.hash, getHash b⟩

/-- Modelled from the spec: the boundary predicate of the missing
`boundaries.ts`: a 32-bit value from the first four hash bytes (big-endian),
level-salted by xor, compared against `u32::MAX / average`. -/
def hashPrefixBE (h : Bytes) : Nat :=
  h.getD 0 0 * 16777216 + h.getD 1 0 * 65536 + h.getD 2 0 * 256 + h.getD 3 0

def levelSalt (level : Nat) : Nat := (level * 2654435761) % 4294967296

def isBoundaryNode (average level : Nat) (n : Node) : Bool :=
  Nat.xor (hashPrefixBE n.hash) (levelSalt level) < 4294967295 / average

/-- Modelled from the spec and `test/utils.test.ts`: index of the first element
failing the test, or the length when none fails (`findFailure`). -/
def findFailure : List α → (α → Bool) → Nat
  | [], _ => 0
  | x :: xs, t => if t x then findFailure xs t + 1 else 0

/-- Modelled from the spec and `test/utils.test.ts`: first failing index, or
the last index when no element fails (`findFailureOrLastIndex`). -/
def findFailureOrLastIndex (l : List α) (t : α → Bool) : Nat :=
  min (findFailure l t) (l.length - 1)

inductive UpdateOp where
  | add (value : Node)
  | rm (value : Node)
deriving DecidableEq, Repr

/-- `LeveledUpdate`: an update tagged with the level it applies at. -/
structure LeveledUpdate where
  op : UpdateOp
  level : Nat
deriving DecidableEq, Repr

def LeveledUpdate.value : LeveledUpdate → Node
  | ⟨.add v, _⟩ => v
  | ⟨.rm v, _⟩ => v

/-- A node diff `(removed?, added?)`. -/
abbrev NodeDiff := Option Node × Option Node

abbrev BucketDiff := Option Bucket × Option Bucket

structure ProllyTreeDiff where
  nodes : List NodeDiff
  buckets : List BucketDiff
deriving DecidableEq, Repr

/-- `handleUpdate` from `builder.ts`: reconcile a (possibly absent) node with
an update of the same tuple, returning the kept node and the node diff. -/
def handleUpdate (node : Option Node) (update : LeveledUpdate) :
    Option Node × Option NodeDiff :=
  match update.op with
  | .add a =>
    match node with
    | some n =>
      if compareBytes n.message a.message ≠ .eq then
        (some a, some (some n, some a))
      else
        (some n, none)
    | none => (some a, some (none, some a))
  | .rm _ =>
    match node with
    | some n => (none, some (some n, none))
    | none => (none, none)

/-- Modelled from the spec: `pairwiseTraversal` of `@tabcat/ordered-sets`,
the ordered merge of nodes with updates matched by tuple (fuelled; the fuel
`ns.length + us.length` always suffices). -/
def pairwiseGo : Nat → List Node → List LeveledUpdate →
    List (Option Node × Option LeveledUpdate)
  | 0, _, _ => []
  | _ + 1, [], [] => []
  | fuel + 1, [], u :: us => (none, some u) :: pairwiseGo fuel [] us
  | fuel + 1, n :: ns, [] => (some n, none) :: pairwiseGo fuel ns []
  | fuel + 1, n :: ns, u :: us =>
    match compareTuples n u.value with
    | .lt => (some n, none) :: pairwiseGo fuel ns (u :: us)
    | .gt => (none, some u) :: pairwiseGo fuel (n :: ns) us
    | .eq => (some n, some u) :: pairwiseGo fuel ns us

def pairwiseTraversal (ns : List Node) (us : List LeveledUpdate) :
    List (Option Node × Option LeveledUpdate) :=
  pairwiseGo (ns.length + us.length) ns us

/-- One merged step of `updateBucket`: keep the node unchanged when there is
no update for its tuple, else reconcile through `handleUpdate`. -/
def keepOrHandle (n : Option Node) (u : Option LeveledUpdate) :
    Option Node × Option NodeDiff :=
  match u with
  | none => (n, none)
  | some u => handleUpdate n u

/-- The streaming body of `updateBucket`: run the merged stream through the
boundary predicate, emitting a bucket at each boundary and carrying the
entries after the final boundary (`afterbound`). -/
def updateBucketGo (isB : Node → Bool) (p : Pfx) :
    List (Option Node × Option LeveledUpdate) → List Node →
    List Bucket × List Node × List NodeDiff
  | [], afterbound => ([], afterbound, [])
  | (n, u) :: rest, afterbound =>
    match keepOrHandle n u with
    | (some addedNode, d) =>
      if isB addedNode then
        let r := updateBucketGo isB p rest []
        (createBucket p (afterbound ++ [addedNode]) :: r.1, r.2.1,
          d.toList ++ r.2.2)
      else
        let r := updateBucketGo isB p rest (afterbound ++ [addedNode])
        (r.1, r.2.1, d.toList ++ r.2.2)
    | (none, d) =>
      let r := updateBucketGo isB p rest afterbound
      (r.1, r.2.1, d.toList ++ r.2.2)

/-- `updateBucket` from `builder.ts`: rebuild one bucket from leftovers, its
entries and an ordered update batch; the head bucket of a level emits a final
trailing bucket when leftovers remain or nothing was emitted. -/
def updateBucket (bucket : Bucket) (leftovers : List Node)
    (updates : List LeveledUpdate) (isHead : Bool) :
    List Bucket × List Node × List NodeDiff :=
  let isB := isBoundaryNode bucket.pfx.average bucket.pfx.level
  let r := updateBucketGo isB bucket.pfx
    (pairwiseTraversal (leftovers ++ bucket.nodes) updates) []
  if isHead && (r.2.1.length > 0 || r.1.length == 0) then
    (r.1 ++ [createBucket bucket.pfx r.2.1], [], r.2.2)
  else
    r

/-! ## Cursor (`src/cursor.ts`) -/

inductive CErr where
  | notFound
  | pfxMismatch
  | digestMismatch
  | malformedTree
  | cursorLock
  | sameLevel
  | aboveRoot
  | emptyAccess
  | noNewRoot
  | internal
deriving DecidableEq, Repr

/-- The block store, modelled as an association of digests to stored buckets
(blocks are addressed by the CID derived from the digest). -/
abbrev Store := List (Bytes × Bucket)

/-- Modelled from the spec: `loadBucket` of the missing `utils.ts`; fetch by
digest, then verify the expected prefix (including level) and the digest. -/
def loadBucket (store : Store) (digest : Bytes) (expected : Pfx) :
    Except CErr Bucket :=
  match store.lookup digest with
  | none => .error .notFound
  | some b =>
    if b.pfx ≠ expected then .error .pfxMismatch
    else if hashBytes (bucketBytes b) ≠ digest then .error .digestMismatch
    else .ok b

/-- `CursorState`: bucket stack from root to current level, current index
(`-1` iff the current bucket is empty), done and lock flags. -/
structure CursorState where
  currentBuckets : List Bucket
  currentIndex : Int
  isDone : Bool
  isLocked : Bool
deriving DecidableEq, Repr

def defaultBucket : Bucket := ⟨⟨0, 0⟩, []⟩

/-- `bucketOf`: the topmost (current) bucket. The source throws on an empty
stack, which is ruled out at creation; the model totalizes with a default. -/
def bucketOfS (s : CursorState) : Bucket :=
  s.currentBuckets.getLast?.getD defaultBucket

def levelOfS (s : CursorState) : Nat := (bucketOfS s).pfx.level

def rootLevelOfS (s : CursorState) : Nat :=
  ((s.currentBuckets.head?).getD defaultBucket).pfx.level

/-- `nodeOf`: the entry at the current index, if in range. -/
def nodeOfS (s : CursorState) : Option Node :=
  if 0 ≤ s.currentIndex ∧ s.currentIndex < ((bucketOfS s).nodes.length : Int)
  then (bucketOfS s).nodes.get? s.currentIndex.toNat
  else none

/-- `createCursorState`: stack `[root]`, index `min 0 (len - 1)` (so `-1` on
an empty root), done iff the index is `-1`. -/
def createCursorState (root : Bucket) : CursorState :=
  let idx : Int := min 0 ((root.nodes.length : Int) - 1)
  ⟨[root], idx, idx == -1, false⟩

/-- `overflows`: whether incrementing the index would overflow the bucket. -/
def overflowsS (s : CursorState) : Bool :=
  s.currentIndex == ((bucketOfS s).nodes.length : Int) - 1

/-- `guideByTuple`: index of the first entry whose tuple is ≥ the target, or
the last index when there is none. -/
def guideByTuple (target : Node) (nodes : List Node) : Nat :=
  findFailureOrLastIndex nodes fun n => compareTuples target n == .gt

/-- `getIsExtremity`: along the stack, every parent links to its child through
the picked (first/last) entry's message. -/
def isExtremityGo (pick : List Node → Option Node) : List Bucket → Bool
  | a :: b :: rest =>
    match pick a.nodes with
    | none => false
    | some n => n.message == getHash b && isExtremityGo pick (b :: rest)
  | _ => true

def getIsAtTail (s : CursorState) : Bool :=
  isExtremityGo (fun ns => ns.head?) s.currentBuckets

def getIsAtHead (s : CursorState) : Bool :=
  isExtremityGo (fun ns => ns.getLast?) s.currentBuckets

/-- The ascending splice of `moveToLevel`: retain the first
`length + levelOf - level` stack entries, then set the guided index. -/
def spliceUp (s : CursorState) (level : Nat) (guide : List Node → Nat) : CursorState :=
  let keep : Int := (s.currentBuckets.length : Int) + (levelOfS s : Int) - (level : Int)
  let s1 : CursorState := { s with currentBuckets := s.currentBuckets.take keep.toNat }
  { s1 with currentIndex := (guide (bucketOfS s1).nodes : Int) }

/-- The descending step of `moveToLevel`: push the loaded child bucket, then
set the guided index. -/
def pushChild (s : CursorState) (b : Bucket) (guide : List Node → Nat) : CursorState :=
  let s1 : CursorState := { s with currentBuckets := s.currentBuckets ++ [b] }
  { s1 with currentIndex := (guide (bucketOfS s1).nodes : Int) }

/-- The loop of `moveToLevel` (fuelled; one splice when ascending, one child
load per level when descending, so the fuel below always suffices). -/
def moveToLevelGo (store : Store) (guide : List Node → Nat) (level : Nat) :
    Nat → CursorState → Except CErr CursorState
  | 0, _ => .error .internal
  | fuel + 1, s =>
    if level = levelOfS s then .ok s
    else if level > levelOfS s then
      moveToLevelGo store guide level fuel (spliceUp s level guide)
    else
      match nodeOfS s with
      | none => .error .emptyAccess
      | some n =>
        match loadBucket store n.message (pfxWithLevel (bucketOfS s).pfx (levelOfS s - 1)) with
        | .error e => .error e
        | .ok b =>
          if b.nodes.length = 0 then .error .malformedTree
          else moveToLevelGo store guide level fuel (pushChild s b guide)

/-- `moveToLevel`: vertical motion; errors on same level or above root (the
negative-level check of the source is vacuous over `Nat`). Default guide:
lowest index when descending, current tuple when ascending. -/
def moveToLevel (store : Store) (s : CursorState) (level : Nat)
    (g : Option (List Node → Nat)) : Except CErr CursorState :=
  if level = levelOfS s then .error .sameLevel
  else if level > rootLevelOfS s then .error .aboveRoot
  else
    let guide := g.getD
      (if level < levelOfS s then fun _ => 0
       else guideByTuple ((nodeOfS s).getD defaultNode))
    moveToLevelGo store guide level
      (s.currentBuckets.length + levelOfS s + level + 2) s

/-- Ascent loop of `moveSideways` on the internal copy: climb while the index
would overflow; at the root it signals done (`none`). -/
def msAscend (store : Store) : Nat → CursorState → Except CErr (Option CursorState)
  | 0, _ => .error .internal
  | fuel + 1, c =>
    if overflowsS c then
      if c.currentBuckets.length = 1 then .ok none
      else
        match moveToLevel store c (levelOfS c + 1) none with
        | .error e => .error e
        | .ok c1 => msAscend store fuel c1
    else .ok (some c)

/-- Descent loop of `moveSideways`: get back down to the original level. -/
def msDescend (store : Store) (target : Nat) :
    Nat → CursorState → Except CErr CursorState
  | 0, _ => .error .internal
  | fuel + 1, c =>
    if levelOfS c = target then .ok c
    else
      match moveToLevel store c target none with
      | .error e => .error e
      | .ok c1 => msDescend store target fuel c1

/-- `moveSideways`: on its own copy, climb past overflowing buckets (done at
the root), increment the index, and descend back to the original level. -/
def moveSideways (store : Store) (s : CursorState) : Except CErr CursorState :=
  match msAscend store (s.currentBuckets.length + 1) s with
  | .error e => .error e
  | .ok none => .ok { s with isDone := true }
  | .ok (some c) =>
    let c1 : CursorState := { c with currentIndex := c.currentIndex + 1 }
    msDescend store (levelOfS s) (levelOfS c1 + s.currentBuckets.length + 2) c1

/-- The snapshot work of `nextAtLevel`: move to the level if needed, then
move sideways when the target level is ≥ the pre-call level. -/
def nextAtLevelWork (store : Store) (s : CursorState) (level : Nat) :
    Except CErr CursorState :=
  match (if level ≠ levelOfS s then moveToLevel store s level none else .ok s) with
  | .error e => .error e
  | .ok sc =>
    if level ≥ levelOfS s then moveSideways store sc else .ok sc

/-- `nextAtLevel`: done/lock preamble, then the snapshot work; commit the
snapshot (which carries the pre-lock flag), or keep the lock on error. -/
def nextAtLevelOp (store : Store) (s0 : CursorState) (level : Nat) :
    CursorState × Option CErr :=
  let s := if level > rootLevelOfS s0 then { s0 with isDone := true } else s0
  if s.isDone then (s, none)
  else if s.isLocked then (s, some .cursorLock)
  else
    match nextAtLevelWork store s level with
    | .ok sc => (sc, none)
    | .error e => ({ s with isLocked := true }, some e)

/-- The snapshot work of `nextBucketAtLevel`: move to the level if needed,
set the index to the last index — read, as in the source, from the PRE-MOVE
bucket (`bucketOf(state)`, line 413) — then move sideways. -/
def nextBucketAtLevelWork (store : Store) (s : CursorState) (level : Nat) :
    Except CErr CursorState :=
  match (if level ≠ levelOfS s then moveToLevel store s level none else .ok s) with
  | .error e => .error e
  | .ok sc =>
    moveSideways store
      { sc with currentIndex := ((bucketOfS s).nodes.length : Int) - 1 }

/-- `nextBucketAtLevel`: done/lock preamble, then the snapshot work; commit
the snapshot, or keep the lock on error. -/
def nextBucketAtLevelOp (store : Store) (s0 : CursorState) (level : Nat) :
    CursorState × Option CErr :=
  let s := if level > rootLevelOfS s0 then { s0 with isDone := true } else s0
  if s.isDone then (s, none)
  else if s.isLocked then (s, some .cursorLock)
  else
    match nextBucketAtLevelWork store s level with
    | .ok sc => (sc, none)
    | .error e => ({ s with isLocked := true }, some e)

/-- Ascent loop of `ffw`: move up while the current bucket's last tuple is
below the target and we are below the root; mutates the live state. -/
def ffwAscend (store : Store) (tuple : Node) :
    Nat → CursorState → CursorState × Option CErr
  | 0, s => (s, some .internal)
  | fuel + 1, s =>
    if levelOfS s < rootLevelOfS s then
      match (bucketOfS s).nodes.getLast? with
      | none => (s, some .emptyAccess)
      | some lastNode =>
        if compareTuples tuple lastNode == .gt then
          match moveToLevel store s (levelOfS s + 1) (some (guideByTuple tuple)) with
          | .error e => (s, some e)
          | .ok s1 => ffwAscend store tuple fuel s1
        else (s, none)
    else (s, none)

/-- The live-state work of `ffwToTupleOnLevel`: ascend past smaller
boundaries, then move to the target level guided by the tuple; the moved
state is carried along even on error. -/
def ffwWork (store : Store) (s : CursorState) (tuple : Node) (level : Nat) :
    CursorState × Option CErr :=
  match ffwAscend store tuple (s.currentBuckets.length + rootLevelOfS s + 2) s with
  | (sm, some e) => (sm, some e)
  | (sm, none) =>
    if level ≠ levelOfS sm then
      match moveToLevel store sm level (some (guideByTuple tuple)) with
      | .error e => (sm, some e)
      | .ok smv => (smv, none)
    else (sm, none)

/-- `ffwToTupleOnLevel`: done/lock preamble, then the work on the LIVE
(locked) state — but on success `Object.assign(state, stateCopy)` restores
the pre-call snapshot, so every movement is discarded, and the
`stateCopy.isDone;` statement of the source has no effect. On error the
moved, still-locked state remains. -/
def ffwOp (store : Store) (s0 : CursorState) (tuple : Node) (level : Nat) :
    CursorState × Option CErr :=
  let s := if level > rootLevelOfS s0 then { s0 with isDone := true } else s0
  if s.isDone then (s, none)
  else if s.isLocked then (s, some .cursorLock)
  else
    match ffwWork store { s with isLocked := true } tuple level with
    | (_, none) => (s, none)
    | (sm, some e) => (sm, some e)

/-- The public mutating cursor operations (`next`, `nextBucket`, `ffw`; the
level defaults to the current level when omitted). -/
inductive CursorOp where
  | next (level : Option Nat)
  | nextBucket (level : Option Nat)
  | ffw (tuple : Node) (level : Nat)
deriving DecidableEq, Repr

def opLevel (s : CursorState) : CursorOp → Nat
  | .next l => l.getD (levelOfS s)
  | .nextBucket l => l.getD (levelOfS s)
  | .ffw _ l => l

def applyOp (store : Store) (s : CursorState) : CursorOp → CursorState × Option CErr
  | .next l => nextAtLevelOp store s (l.getD (levelOfS s))
  | .nextBucket l => nextBucketAtLevelOp store s (l.getD (levelOfS s))
  | .ffw t l => ffwOp store s t l

/-! ## Mutation engine (`src/builder.ts`, `mutateTree`) -/

/-- Modelled from the spec: `compareUpdates` of the missing `compare.ts`,
comparing updates by the tuples of their values. -/
def compareUpdates (a b : LeveledUpdate) : Ordering :=
  compareTuples a.value b.value

/-- `compareLeveledUpdates`: by level, then by `compareUpdates`. -/
def compareLeveledUpdates (a b : LeveledUpdate) : Ordering :=
  if a.level < b.level then .lt
  else if b.level < a.level then .gt
  else compareUpdates a b

/-- Stable insertion step: place the (later) element after all elements that
do not compare greater, as `Array.prototype.sort` (stable) does. -/
def insertLeveledUpdate (x : LeveledUpdate) : List LeveledUpdate → List LeveledUpdate
  | [] => [x]
  | y :: ys =>
    if compareLeveledUpdates x y == .lt then x :: y :: ys
    else y :: insertLeveledUpdate x ys

def sortLeveledUpdates (l : List LeveledUpdate) : List LeveledUpdate :=
  l.foldl (fun acc x => insertLeveledUpdate x acc) []

/-- `bucketToParentNode` / `getParentNode` of the updatee and emitted buckets
feed the next level's updates; tracked loop state of `mutateTree`. -/
structure MTState where
  updts : List LeveledUpdate
  level : Int
  bucketsOnLevel : Nat
  leftovers : List Node
  visitedLevelTail : Bool
  visitedLevelHead : Bool
  newRoot : Option Bucket
  cursor : CursorState
  diffNodes : List NodeDiff
  diffBuckets : List BucketDiff
  yields : List ProllyTreeDiff
deriving DecidableEq, Repr

/-- The `while` loop of `mutateTree` (fuelled by the source's own escape
counter `i < updates.length ** 2`; fuel exhaustion exits the loop normally,
exactly as the counter does). -/
def mutateLoop (store : Store) (rootPfx : Pfx) : Nat → MTState → Except CErr MTState
  | 0, st => .ok st
  | fuel + 1, st =>
    match st.updts with
    | [] => .ok st
    | u0 :: _ =>
      let updtLevel := u0.level
      let firstBucketOfLevel : Bool := st.level != (updtLevel : Int)
      let bucketsOnLevel0 := if firstBucketOfLevel then 0 else st.bucketsOnLevel
      let pastRootLevel : Bool := (updtLevel : Int) > (rootLevelOfS st.cursor : Int)
      let driven : Except CErr (Bucket × CursorState × Bool × Bool) :=
        if pastRootLevel then
          .ok (createBucket (pfxWithLevel rootPfx updtLevel) [], st.cursor, true, true)
        else
          let r := if st.leftovers.isEmpty
                   then ffwOp store st.cursor u0.value updtLevel
                   else nextBucketAtLevelOp store st.cursor (levelOfS st.cursor)
          match r with
          | (_, some e) => .error e
          | (c, none) =>
            .ok (bucketOfS c, c,
                 st.visitedLevelTail || (firstBucketOfLevel && getIsAtTail c),
                 getIsAtHead c)
      match driven with
      | .error e => .error e
      | .ok (updatee, cursor, vT, vH) =>
        let bnd := getBoundary updatee
        let cnt := findFailure st.updts fun u =>
          u.level == updtLevel &&
          (bnd.isNone || vH ||
            !(compareTuples u.value (bnd.getD defaultNode) == .gt))
        let batch := st.updts.take cnt
        let rest := st.updts.drop cnt
        let ub := updateBucket updatee st.leftovers batch vH
        let buckets := ub.1
        let afterbound := ub.2.1
        let nodeDiffs := ub.2.2
        let bucketsOnLevel1 := bucketsOnLevel0 + buckets.length
        let dn1 := if updtLevel == 0 then st.diffNodes ++ nodeDiffs else st.diffNodes
        let db1 := st.diffBuckets
          ++ buckets.map (fun b => ((none : Option Bucket), some b))
          ++ (if pastRootLevel then [] else [(some updatee, (none : Option Bucket))])
        let tracked : List NodeDiff × List BucketDiff × List ProllyTreeDiff :=
          if nodeDiffs.isEmpty then (st.diffNodes, st.diffBuckets, st.yields)
          else if buckets.isEmpty then (dn1, db1, st.yields)
          else
            let boundary := getBoundary (buckets.getLast?.getD defaultBucket)
            let split : List NodeDiff × List NodeDiff :=
              if boundary.isNone || vH then (dn1, [])
              else
                let c := findFailure dn1 fun d =>
                  !(compareTuples (d.1.getD (d.2.getD defaultNode))
                      (boundary.getD defaultNode) == .gt)
                (dn1.take c, dn1.drop c)
            (split.2, [], st.yields ++ [⟨split.1, db1⟩])
        let newRootFound :=
          bucketsOnLevel1 == 1 && afterbound.isEmpty && vT && vH
        if newRootFound then
          match buckets.head? with
          | none => .error .internal
          | some nb =>
            mutateLoop store rootPfx fuel
              { updts := [], level := (updtLevel : Int),
                bucketsOnLevel := bucketsOnLevel1, leftovers := afterbound,
                visitedLevelTail := vT, visitedLevelHead := vH,
                newRoot := some nb, cursor := cursor,
                diffNodes := tracked.1, diffBuckets := tracked.2.1,
                yields := tracked.2.2 }
        else
          let rmUpdates : List LeveledUpdate :=
            match getParentNode updatee with
            | some pn => if nodeDiffs.isEmpty then [] else [⟨.rm pn, updtLevel + 1⟩]
            | none => []
          let addUpdates : List LeveledUpdate :=
            buckets.filterMap fun b =>
              (getParentNode b).map fun pn => (⟨.add pn, updtLevel + 1⟩ : LeveledUpdate)
          let parentUpdates := sortLeveledUpdates (rmUpdates ++ addUpdates)
          mutateLoop store rootPfx fuel
            { updts := rest ++ parentUpdates, level := (updtLevel : Int),
              bucketsOnLevel := bucketsOnLevel1, leftovers := afterbound,
              visitedLevelTail := vT, visitedLevelHead := vH,
              newRoot := st.newRoot, cursor := cursor,
              diffNodes := tracked.1, diffBuckets := tracked.2.1,
              yields := tracked.2.2 }

structure MutateOut where
  diffs : List ProllyTreeDiff
  newRoot : Option Bucket
deriving DecidableEq, Repr

/-- `mutateTree`: an empty update list returns immediately; otherwise run the
loop; no new root is an error; on success append the shrinkage removals and
the final diff, and report the new root. The yielded diffs are collected in
order in `MutateOut.diffs`. -/
def mutateTree (store : Store) (root : Bucket) (updates : List UpdateOp) :
    Except CErr MutateOut :=
  match updates with
  | [] => .ok ⟨[], none⟩
  | _ =>
    let cursor := createCursorState root
    let updts := updates.map fun u => (⟨u, 0⟩ : LeveledUpdate)
    let st0 : MTState := ⟨updts, -1, 0, [], false, false, none, cursor, [], [], []⟩
    match mutateLoop store root.pfx (updates.length ^ 2) st0 with
    | .error e => .error e
    | .ok st =>
      match st.newRoot with
      | none => .error .noNewRoot
      | some r =>
        let db :=
          if st.level < (rootLevelOfS st.cursor : Int) then
            st.diffBuckets ++
              ((st.cursor.currentBuckets.take
                  (((st.cursor.currentBuckets.length : Int) - 1 + st.level).toNat)).map
                (fun b => (some b, (none : Option Bucket)))).reverse
          else st.diffBuckets
        let yields := if db.isEmpty then st.yields else st.yields ++ [⟨st.diffNodes, db⟩]
        .ok ⟨yields, some r⟩

/-- The tree's `root` slot after a `mutateTree` call: assigned only on the
success path (the assignment is the final statement of the generator). -/
def mutateApplyRoot (store : Store) (root : Bucket) (updates : List UpdateOp) : Bucket :=
  match mutateTree store root updates with
  | .error _ => root
  | .ok out => out.newRoot.getD root

def diffAddedBuckets (d : ProllyTreeDiff) : List Bucket := d.buckets.filterMap (·.2)

/-- The `mutate` entry point's bookkeeping: each yielded diff's added buckets
are put to the block store; the tree root becomes the new root. -/
def runMutate (store : Store) (root : Bucket) (updates : List UpdateOp) :
    Except CErr (Store × Bucket) :=
  match mutateTree store root updates with
  | .error e => .error e
  | .ok out =>
    .ok (store ++ (out.diffs.flatMap diffAddedBuckets).map (fun b => (getHash b, b)),
         out.newRoot.getD root)

/-- `createEmptyTree()`: a single empty level-0 bucket with the default
average bucket size of 30. -/
def emptyTreeRoot : Bucket := createBucket ⟨30, 0⟩ []

/-! ## Concrete inputs used by witnesses and counterexamples -/

/-- Entry with a level-0 boundary hash (first four bytes BE = 1 < max/30). -/
def e1 : Node := ⟨0, [0, 0, 0, 1], [1]⟩

/-- Entry that is not a boundary at level 0 or 1. -/
def e2 : Node := ⟨1, [255, 0, 0, 0], [2]⟩

/-- Entry that is not a boundary at level 0 or 1. -/
def e3 : Node := ⟨2, [254, 0, 0, 0], [3]⟩

/-- Entry that is not a boundary at level 0 or 1. -/
def e4 : Node := ⟨3, [253, 0, 0, 0], [4]⟩

/-- Insert `{e1, e2}` into the canonical empty tree in one batch: produces a
two-level tree (level 0 chunks as `[e1]`, `[e2]`). -/
def insertRun12 : Except CErr (Store × Bucket) :=
  runMutate [] emptyTreeRoot [.add e1, .add e2]

/-- Then remove both tuples in ascending order in one batch. -/
def removeRun12 : Except CErr (Store × Bucket) :=
  match insertRun12 with
  | .ok (s, r) => runMutate s r [.rm e1, .rm e2]
  | .error e => .error e

def c2FinalRoot : Option Bucket :=
  match removeRun12 with
  | .ok (_, r) => some r
  | .error _ => none

/-- Ordering A for determinism: all three entries in one batch. -/
def c1RootA : Option Bucket :=
  match runMutate [] emptyTreeRoot [.add e1, .add e2, .add e3] with
  | .ok (_, r) => some r
  | .error _ => none

/-- Ordering B: `{e1, e2}` first, then `{e3}` (both batches ascending). -/
def c1RootB : Option Bucket :=
  match insertRun12 with
  | .ok (s, r) =>
    match runMutate s r [.add e3] with
    | .ok (_, r2) => some r2
    | .error _ => none
  | .error _ => none

/-- A fresh cursor over a single level-0 root bucket `[e1, e2]`. -/
def c4Start : CursorState := createCursorState (createBucket ⟨30, 0⟩ [e1, e2])

def c4Res : CursorState × Option CErr := ffwOp [] c4Start e2 0

/-- A two-level tree for the next-bucket counterexample: level 0 buckets
`[e1, e2, e3]` and `[e4]` under a two-entry root. -/
def c8ChildA : Bucket := createBucket ⟨30, 0⟩ [e1, e2, e3]

def c8ChildB : Bucket := createBucket ⟨30, 0⟩ [e4]

def c8Root : Bucket :=
  createBucket ⟨30, 1⟩
    [⟨e3.timestamp, e3.hash, getHash c8ChildA⟩, ⟨e4.timestamp, e4.hash, getHash c8ChildB⟩]

def c8Store : Store := [(getHash c8ChildA, c8ChildA), (getHash c8ChildB, c8ChildB)]

def c8Res : CursorState × Option CErr :=
  nextBucketAtLevelOp c8Store (createCursorState c8Root) 0

/-- A one-entry level-1 root whose child digest is absent from the store:
any descent fails with `NotFound`. -/
def brokenRoot : Bucket := createBucket ⟨30, 1⟩ [⟨0, [0, 0, 0, 2], [42]⟩]

/-- The cursor state left behind by a failing `nextAtLevel(0)` on
`brokenRoot` over an empty store: the lock is never released. -/
def lockedState : CursorState := (nextAtLevelOp [] (createCursorState brokenRoot) 0).1

/-- A level-1 bucket holding one parent entry, for the `updateBucket`
empty-emission counterexample. -/
def c6Bucket : Bucket := createBucket ⟨30, 1⟩ [⟨0, [0, 0, 0, 3], [7]⟩]

def c6Update : LeveledUpdate := ⟨.rm ⟨0, [0, 0, 0, 3], [7]⟩, 1⟩

/-! ## Helper lemmas -/

theorem compareBytesEqIff : ∀ xs ys : Bytes, compareBytes xs ys = .eq ↔ xs = ys := by
  intro xs
  induction xs with
  | nil => intro ys; cases ys <;> simp [compareBytes]
  | cons a as ih =>
    intro ys
    cases ys with
    | nil => simp [compareBytes]
    | cons b bs =>
      simp only [compareBytes]
      by_cases h1 : a < b
      · simp only [if_pos h1]
        constructor
        · intro hcontra; cases hcontra
        · rintro ⟨⟩; exact absurd h1 (lt_irrefl a)
      · by_cases h2 : b < a
        · simp only [if_neg h1, if_pos h2]
          constructor
          · intro hcontra; cases hcontra
          · rintro ⟨⟩; exact absurd h2 (lt_irrefl a)
        · have hab : a = b := Nat.le_antisymm (Nat.le_of_not_lt h2) (Nat.le_of_not_lt h1)
          simp [if_neg h1, if_neg h2, ih bs, hab]

theorem cursorSetDoneSelf (s : CursorState) (h : s.isDone = true) :
    ({ s with isDone := true } : CursorState) = s := by
  cases s with
  | mk bs i d l => simp only at h; rw [h]

/-! ## Claim theorems -/

/-- C5: Per-tuple reconciliation of `handleUpdate`: an add over an existing
node keeps the node (no diff) exactly when the messages agree byte-for-byte
and otherwise replaces it with diff `(n, a)`; an add with no existing node
inserts with diff `(null, a)`; a removal of an existing node removes it with
diff `(n, null)`; a removal with no existing node is a silent no-op. -/
theorem handleUpdate_reconciliation (n a v : Node) (lvl lvl2 : Nat) :
    (handleUpdate (some n) ⟨.add a, lvl⟩ =
      if a.message = n.message then (some n, none)
      else (some a, some (some n, some a))) ∧
    handleUpdate none ⟨.add a, lvl⟩ = (some a, some (none, some a)) ∧
    handleUpdate (some n) ⟨.rm v, lvl2⟩ = (none, some (some n, none)) ∧
    handleUpdate none ⟨.rm v, lvl2⟩ = (none, none) := by
  refine ⟨?_, rfl, rfl, rfl⟩
  by_cases h : a.message = n.message
  · simp [handleUpdate, h, compareBytesEqIff]
  · have hne : compareBytes n.message a.message ≠ .eq := by
      intro hc
      exact h ((compareBytesEqIff _ _).mp hc).symm
    simp [handleUpdate, hne, h]

/-- C10: an empty update batch is a silent no-op: `mutateTree` yields no
diffs, raises no error, reads nothing from the block store (the result does
not depend on it), and the root slot is left unchanged. -/
theorem mutateTree_empty_updates_noop (store store2 : Store) (root : Bucket) :
    mutateTree store root [] = .ok ⟨[], none⟩ ∧
    mutateApplyRoot store root [] = root ∧
    mutateTree store root [] = mutateTree store2 root [] :=
  ⟨rfl, rfl, rfl⟩

/-- C3: mutation atomicity on error: whenever `mutateTree` terminates with
any error, the tree's root slot holds exactly the bucket it held before the
call — the new root is assigned only on the success path. -/
theorem mutateTree_error_keeps_root (store : Store) (root : Bucket)
    (updates : List UpdateOp) (e : CErr)
    (h : mutateTree store root updates = .error e) :
    mutateApplyRoot store root updates = root := by
  simp [mutateApplyRoot, h]

theorem mutateTree_error_keeps_root_witness :
    mutateTree [] brokenRoot [.add e1] = .error .notFound ∧
    mutateApplyRoot [] brokenRoot [.add e1] = brokenRoot :=
  ⟨by rfl, mutateTree_error_keeps_root [] brokenRoot [.add e1] .notFound (by rfl)⟩

/-- C4: the claimed `ffw` postcondition fails: on the two-entry level-0 root
`[e1, e2]`, `ffw(tuple(e2), 0)` returns without error and without done, yet
the cursor still sits at index 0 on `e1`, whose tuple is strictly below the
target — `ffwToTupleOnLevel` restores the pre-call snapshot on success. -/
theorem ffw_discards_movement :
    c4Res = (c4Start, none) ∧
    c4Start.isDone = false ∧
    nodeOfS c4Start = some e1 ∧
    compareTuples e2 e1 = .gt := by decide

/-- C2: the insert/remove round trip fails: inserting `{e1, e2}` into the
canonical empty tree and then removing both tuples in ascending order leaves
an empty level-1 root bucket, not the canonical empty (level-0) tree. -/
theorem mutateTree_roundtrip_not_empty :
    c2FinalRoot = some (createBucket ⟨30, 1⟩ []) ∧
    c2FinalRoot ≠ some emptyTreeRoot ∧
    (c2FinalRoot.map bucketBytes ≠ some (bucketBytes emptyTreeRoot)) := by decide

/-- C1: determinism fails across batch orderings: inserting `{e1, e2, e3}`
in one batch and inserting `{e1, e2}` then `{e3}` (both calls ascending)
produce different root buckets with different bytes. -/
theorem mutateTree_insert_order_dependent :
    c1RootA.isSome = true ∧
    c1RootB.isSome = true ∧
    c1RootA ≠ c1RootB ∧
    c1RootA.map bucketBytes ≠ c1RootB.map bucketBytes := by decide

/-- C8: the claimed `nextBucket` postcondition fails when the target level
differs from the current one: from the root of a two-level tree,
`nextBucketAtLevel(0)` lands at index 2 (the last entry) of the first child
bucket instead of index 0 of the following bucket, because the index is set
from the pre-move bucket's length. -/
theorem nextBucket_lands_mid_bucket :
    c8Res.2 = none ∧
    (c8Res.1).currentBuckets = [c8Root, c8ChildA] ∧
    (c8Res.1).currentIndex = 2 ∧
    (c8Res.1).isDone = false ∧
    (c8Res.1).currentBuckets ≠ [c8Root, c8ChildB] := by decide

theorem updateBucketGoNonempty (isB : Node → Bool) (p : Pfx) :
    ∀ (ps : List (Option Node × Option LeveledUpdate)) (ab : List Node)
      (B : Bucket), B ∈ (updateBucketGo isB p ps ab).1 → B.nodes ≠ [] := by
  intro ps
  induction ps with
  | nil => intro ab B h; simp [updateBucketGo] at h
  | cons hd tl ih =>
    intro ab B h
    obtain ⟨n, u⟩ := hd
    rw [updateBucketGo] at h
    rcases hk : keepOrHandle n u with ⟨an, d⟩
    rw [hk] at h
    cases an with
    | some addedNode =>
      by_cases hb : isB addedNode = true
      · simp only [hb, if_true] at h
        rcases List.mem_cons.mp h with h1 | h2
        · subst h1; simp [createBucket]
        · exact ih [] B h2
      · simp only [hb, if_false] at h
        exact ih (ab ++ [addedNode]) B h
    | none => exact ih ab B h

/-- C6 (amended): `updateBucket` emits a final trailing bucket exactly when
the bucket is the level head and either trailing leftovers remain or no
bucket was emitted; buckets emitted at boundaries are always non-empty, so
only that final trailing bucket may be empty — at any level, not only at
level 0. -/
theorem updateBucket_head_trailing_rule (b : Bucket) (l : List Node)
    (u : List LeveledUpdate) :
    (updateBucket b l u true =
      (let r := updateBucket b l u false
       if r.2.1.length > 0 || r.1.length == 0 then
         (r.1 ++ [createBucket b.pfx r.2.1], [], r.2.2)
       else r)) ∧
    (∀ B ∈ (updateBucket b l u false).1, B.nodes ≠ []) ∧
    (∀ B ∈ (updateBucket b l u true).1.dropLast, B.nodes ≠ []) := by
  refine ⟨?_, ?_, ?_⟩
  · simp [updateBucket]
  · intro B hB
    simp only [updateBucket, Bool.false_and, if_false] at hB
    exact updateBucketGoNonempty _ _ _ _ B hB
  · intro B hB
    simp only [updateBucket, Bool.true_and, Bool.false_and, if_false] at hB
    set r := updateBucketGo (isBoundaryNode b.pfx.average b.pfx.level) b.pfx
      (pairwiseTraversal (l ++ b.nodes) u) [] with hr
    by_cases hc : (r.2.1.length > 0 || r.1.length == 0) = true
    · rw [if_pos hc] at hB
      simp only [List.dropLast_concat] at hB
      exact updateBucketGoNonempty _ _ _ _ B hB
    · rw [if_neg hc] at hB
      exact updateBucketGoNonempty _ _ _ _ B (List.mem_of_mem_dropLast hB)

theorem updateBucket_head_trailing_rule_witness :
    (createBucket ⟨30, 0⟩ [e1]) ∈
      (updateBucket emptyTreeRoot [] [⟨.add e1, 0⟩] false).1 ∧
    (createBucket ⟨30, 0⟩ [e1]).nodes ≠ [] :=
  ⟨by decide,
   (updateBucket_head_trailing_rule emptyTreeRoot [] [⟨.add e1, 0⟩]).2.1 _ (by decide)⟩

/-- C6 counterexample: at level 1, removing the only entry of a head bucket
makes `updateBucket` emit an empty bucket whose prefix level is 1 — refuting
"at levels > 0 no empty bucket is ever emitted". -/
theorem updateBucket_emits_empty_bucket_at_level_one :
    updateBucket c6Bucket [] [c6Update] true =
      ([createBucket ⟨30, 1⟩ []], [], [(some ⟨0, [0, 0, 0, 3], [7]⟩, none)]) ∧
    (createBucket ⟨30, 1⟩ []).nodes = [] ∧
    (createBucket ⟨30, 1⟩ []).pfx.level ≠ 0 := by decide

/-- C7: done is sticky and absorbing: on a done cursor every mutating
operation returns immediately with no error, leaving the bucket stack, the
index and all flags unchanged (so done stays true forever); and a mutating
operation whose target level exceeds the root level makes the cursor done. -/
theorem cursor_done_sticky_absorbing (store : Store) (s : CursorState)
    (op : CursorOp) :
    (s.isDone = true → applyOp store s op = (s, none)) ∧
    (opLevel s op > rootLevelOfS s → ((applyOp store s op).1).isDone = true) := by
  constructor
  · intro h
    cases op with
    | next l =>
      by_cases c : l.getD (levelOfS s) > rootLevelOfS s <;>
        simp [applyOp, nextAtLevelOp, c, h, cursorSetDoneSelf s h]
    | nextBucket l =>
      by_cases c : l.getD (levelOfS s) > rootLevelOfS s <;>
        simp [applyOp, nextBucketAtLevelOp, c, h, cursorSetDoneSelf s h]
    | ffw t l =>
      by_cases c : l > rootLevelOfS s <;>
        simp [applyOp, ffwOp, c, h, cursorSetDoneSelf s h]
  · intro hc
    cases op with
    | next l =>
      have c : l.getD (levelOfS s) > rootLevelOfS s := hc
      simp [applyOp, nextAtLevelOp, c]
    | nextBucket l =>
      have c : l.getD (levelOfS s) > rootLevelOfS s := hc
      simp [applyOp, nextBucketAtLevelOp, c]
    | ffw t l =>
      have c : l > rootLevelOfS s := hc
      simp [applyOp, ffwOp, c]

theorem cursor_done_sticky_absorbing_witness :
    (createCursorState emptyTreeRoot).isDone = true ∧
    applyOp [] (createCursorState emptyTreeRoot) (.next none) =
      (createCursorState emptyTreeRoot, none) ∧
    ((applyOp [] (createCursorState (createBucket ⟨30, 0⟩ [e1])) (.next (some 3))).1).isDone = true :=
  ⟨by decide,
   (cursor_done_sticky_absorbing [] (createCursorState emptyTreeRoot) (.next none)).1 (by decide),
   (cursor_done_sticky_absorbing [] (createCursorState (createBucket ⟨30, 0⟩ [e1])) (.next (some 3))).2 (by decide)⟩

theorem spliceUpLock (s : CursorState) (level : Nat) (guide : List Node → Nat) :
    (spliceUp s level guide).isLocked = s.isLocked := rfl

theorem pushChildLock (s : CursorState) (b : Bucket) (guide : List Node → Nat) :
    (pushChild s b guide).isLocked = s.isLocked := rfl

theorem moveToLevelGoLock (store : Store) (g : List Node → Nat) (lvl : Nat) :
    ∀ (fuel : Nat) (s s2 : CursorState),
      moveToLevelGo store g lvl fuel s = .ok s2 → s2.isLocked = s.isLocked := by
  intro fuel
  induction fuel with
  | zero => intro s s2 h; simp [moveToLevelGo] at h
  | succ fuel ih =>
    intro s s2 h
    rw [moveToLevelGo] at h
    by_cases h1 : lvl = levelOfS s
    · rw [if_pos h1] at h
      cases h
      rfl
    · rw [if_neg h1] at h
      by_cases h2 : lvl > levelOfS s
      · rw [if_pos h2] at h
        exact (ih _ _ h).trans (spliceUpLock s lvl g)
      · rw [if_neg h2] at h
        cases hn : nodeOfS s with
        | none => rw [hn] at h; simp only [] at h; cases h
        | some n =>
          rw [hn] at h
          simp only [] at h
          cases hl : loadBucket store n.message
              (pfxWithLevel (bucketOfS s).pfx (levelOfS s - 1)) with
          | error e => rw [hl] at h; simp only [] at h; cases h
          | ok b =>
            rw [hl] at h
            simp only [] at h
            by_cases hb : b.nodes.length = 0
            · rw [if_pos hb] at h; cases h
            · rw [if_neg hb] at h
              exact (ih _ _ h).trans (pushChildLock s b g)

theorem moveToLevelLock (store : Store) (s : CursorState) (lvl : Nat)
    (g : Option (List Node → Nat)) (s2 : CursorState)
    (h : moveToLevel store s lvl g = .ok s2) : s2.isLocked = s.isLocked := by
  rw [moveToLevel] at h
  by_cases h1 : lvl = levelOfS s
  · rw [if_pos h1] at h; cases h
  · rw [if_neg h1] at h
    by_cases h2 : lvl > rootLevelOfS s
    · rw [if_pos h2] at h; cases h
    · rw [if_neg h2] at h
      exact moveToLevelGoLock store _ lvl _ s s2 h

theorem ffwAscendLock (store : Store) (t : Node) :
    ∀ (fuel : Nat) (s : CursorState),
      ((ffwAscend store t fuel s).1).isLocked = s.isLocked := by
  intro fuel
  induction fuel with
  | zero => intro s; rfl
  | succ fuel ih =>
    intro s
    rw [ffwAscend]
    by_cases h1 : levelOfS s < rootLevelOfS s
    · rw [if_pos h1]
      cases hg : (bucketOfS s).nodes.getLast? with
      | none => rfl
      | some lastNode =>
        simp only []
        by_cases h2 : (compareTuples t lastNode == .gt) = true
        · rw [if_pos h2]
          cases hm : moveToLevel store s (levelOfS s + 1) (some (guideByTuple t)) with
          | error e => rfl
          | ok s1 =>
            simp only []
            rw [ih s1]
            exact moveToLevelLock store s _ _ s1 hm
        · rw [if_neg h2]
    · rw [if_neg h1]

theorem ffwWorkLock (store : Store) (s : CursorState) (t : Node) (lvl : Nat) :
    ((ffwWork store s t lvl).1).isLocked = s.isLocked := by
  rw [ffwWork]
  have hla := ffwAscendLock store t (s.currentBuckets.length + rootLevelOfS s + 2) s
  cases ha : ffwAscend store t (s.currentBuckets.length + rootLevelOfS s + 2) s with
  | mk sm oe =>
    rw [ha] at hla
    cases oe with
    | some e => exact hla
    | none =>
      simp only []
      simp only [] at hla
      by_cases h1 : lvl ≠ levelOfS sm
      · rw [if_pos h1]
        cases hm : moveToLevel store sm lvl (some (guideByTuple t)) with
        | error e => exact hla
        | ok smv =>
          simp only []
          exact (moveToLevelLock store sm lvl _ smv hm).trans hla
      · rw [if_neg h1]
        exact hla

/-- C9 (amended): an error inside a mutating cursor operation leaves the
lock held (the snapshot that would clear it is never committed); afterwards
every mutating call targeting a level within the root that finds the cursor
not done fails with the cursor-lock error — a call targeting a level above
the root instead returns as a silent no-op marking the cursor done — and the
read-only accessors are unaffected by the lock flag. -/
theorem cursor_lock_semantics (store : Store) (s : CursorState) (op : CursorOp) :
    ((applyOp store s op).2.isSome = true → ((applyOp store s op).1).isLocked = true) ∧
    (s.isLocked = true → s.isDone = false → opLevel s op ≤ rootLevelOfS s →
      applyOp store s op = (s, some .cursorLock)) ∧
    (∀ b : Bool,
      levelOfS { s with isLocked := b } = levelOfS s ∧
      rootLevelOfS { s with isLocked := b } = rootLevelOfS s ∧
      bucketOfS { s with isLocked := b } = bucketOfS s ∧
      nodeOfS { s with isLocked := b } = nodeOfS s) := by
  refine ⟨?_, ?_, fun b => ⟨rfl, rfl, rfl, rfl⟩⟩
  · cases op with
    | next l =>
      by_cases c : (l.getD (levelOfS s)) > rootLevelOfS s
      · simp [applyOp, nextAtLevelOp, c]
      · simp only [applyOp, nextAtLevelOp, if_neg c]
        by_cases d : s.isDone = true
        · simp [d]
        · rw [if_neg d]
          by_cases lk : s.isLocked = true
          · rw [if_pos lk]
            intro _
            exact lk
          · rw [if_neg lk]
            cases hw : nextAtLevelWork store s (l.getD (levelOfS s)) with
            | ok sc => simp
            | error e =>
              simp only []
              intro _
              trivial
    | nextBucket l =>
      by_cases c : (l.getD (levelOfS s)) > rootLevelOfS s
      · simp [applyOp, nextBucketAtLevelOp, c]
      · simp only [applyOp, nextBucketAtLevelOp, if_neg c]
        by_cases d : s.isDone = true
        · simp [d]
        · rw [if_neg d]
          by_cases lk : s.isLocked = true
          · rw [if_pos lk]
            intro _
            exact lk
          · rw [if_neg lk]
            cases hw : nextBucketAtLevelWork store s (l.getD (levelOfS s)) with
            | ok sc => simp
            | error e =>
              simp only []
              intro _
              trivial
    | ffw t l =>
      by_cases c : l > rootLevelOfS s
      · simp [applyOp, ffwOp, c]
      · simp only [applyOp, ffwOp, if_neg c]
        by_cases d : s.isDone = true
        · simp [d]
        · rw [if_neg d]
          by_cases lk : s.isLocked = true
          · rw [if_pos lk]
            intro _
            exact lk
          · rw [if_neg lk]
            have hwl := ffwWorkLock store { s with isLocked := true } t l
            cases hw : ffwWork store { s with isLocked := true } t l with
            | mk sm oe =>
              rw [hw] at hwl
              cases oe with
              | none => simp
              | some e =>
                simp only []
                intro _
                exact hwl
  · intro h1 h2 h3
    cases op with
    | next l =>
      have c : ¬((l.getD (levelOfS s)) > rootLevelOfS s) := not_lt.mpr h3
      simp [applyOp, nextAtLevelOp, c, h1, h2]
    | nextBucket l =>
      have c : ¬((l.getD (levelOfS s)) > rootLevelOfS s) := not_lt.mpr h3
      simp [applyOp, nextBucketAtLevelOp, c, h1, h2]
    | ffw t l =>
      have c : ¬(l > rootLevelOfS s) := not_lt.mpr h3
      simp [applyOp, ffwOp, c, h1, h2]

theorem cursor_lock_semantics_witness :
    lockedState.isLocked = true ∧
    applyOp [] lockedState (.next (some 0)) = (lockedState, some .cursorLock) :=
  ⟨by decide,
   (cursor_lock_semantics [] lockedState (.next (some 0))).2.1 (by decide) (by decide) (by decide)⟩

/-- C9 counterexample: after the failed descent left `lockedState`
permanently locked, the mutating call `nextAtLevel(5)` (a level above the
root) does NOT fail with the cursor-lock error: it returns no error at all,
marking the cursor done — refuting "every subsequent mutating call fails
with the CursorLockError". -/
theorem cursor_locked_call_without_error :
    (nextAtLevelOp [] (createCursorState brokenRoot) 0).2 = some .notFound ∧
    lockedState.isLocked = true ∧
    (applyOp [] lockedState (.next (some 5))).2 = none ∧
    ((applyOp [] lockedState (.next (some 5))).1).isLocked = true ∧
    ((applyOp [] lockedState (.next (some 5))).1).isDone = true := by decide
